import Mathlib

set_option maxHeartbeats 1000000
set_option maxRecDepth 4000

/-!
Verification development for the GreenGrocer ingestion pipeline
(`scripts/ingest_data.py`).

The script reads CSV files with polars, normalizes column names through a
static rename table, casts every column to text, accumulates the per-file
record sets in a batch, and on reaching the batch size (500 files) or on the
last file writes the diagonal concatenation of the batch to a PostgreSQL
table.  We embed the data model (polars data frames restricted to what the
script uses), the per-file processing, the batching loop and the main
pipeline as executable Lean functions and prove the specified properties
about them.

Modelling conventions:
* a data frame is a column-name list plus a row list (polars keeps column
  names unique; where a proof needs that invariant it is an explicit
  hypothesis);
* a cell value is text, integer, boolean or null — the types polars CSV
  inference produces here (dates stay text because `read_csv` does not parse
  dates by default);
* an input file is abstracted to its parse outcome: `some df` when
  `pl.read_csv` succeeds, `none` when it raises (corrupt / unreadable file);
* the database is a map from table name to the list of written frames, and
  the environment chooses through `ok : Nat → Bool` whether the n-th
  `to_sql` call of a run succeeds or raises;
* `IngestState.errors` counts the executions of the `except` branch (the
  printed error messages), `IngestState.writes` is the trace of frames the
  sink received.
-/

/-- A scalar cell value as polars represents it after CSV type inference:
text, integer (Int64), float (Float64), boolean, or null (missing).  The
sales files carry Float64 columns (`unit_price`, `total_amount`), so the
float case is part of the data this pipeline processes.  A float cell
`vFloat m e` is a finite double holding the exact value `m * 2 ^ e`
(every finite Float64 is such a number; the generators emit only finite
numbers, and a non-finite double would also just render to text under the
cast below). -/
inductive Val where
  | vStr : String → Val
  | vInt : Int → Val
  | vFloat : Int → Int → Val
  | vBool : Bool → Val
  | vNull : Val
deriving DecidableEq

/-- Left-pad a digit string with zeros to a given width. -/
def padZeros (s : String) (k : Nat) : String :=
  String.mk (List.replicate (k - s.length) '0') ++ s

/-- Textual rendering of the finite double `m * 2 ^ e`, as its exact
decimal expansion (finite because the value is a dyadic rational).  The
source renders the shortest round-trip decimal instead; the two differ
only in the digit string, which no specified property depends on — what
matters is that every float value renders to text, totally. -/
def floatRepr (m e : Int) : String :=
  if 0 ≤ e then toString (m * (2 : Int) ^ e.toNat) ++ ".0"
  else
    let k := (-e).toNat
    let n := m * (5 : Int) ^ k
    let a := n.natAbs
    let intPart := a / 10 ^ k
    let fracPart := a % 10 ^ k
    (if n < 0 then "-" else "") ++ toString intPart ++ "."
      ++ padZeros (toString fracPart) k

/-- The polars cast to `pl.Utf8` performed by
`df.select(pl.all().cast(pl.Utf8))` (line 120): every non-null value
(text, integer, float, boolean) becomes its textual rendering, null stays
null. -/
def castVal : Val → Val
  | Val.vStr s => Val.vStr s
  | Val.vInt n => Val.vStr (toString n)
  | Val.vFloat m e => Val.vStr (floatRepr m e)
  | Val.vBool b => Val.vStr (if b then "true" else "false")
  | Val.vNull => Val.vNull

/-- A polars data frame as the script uses it: named columns and a list of
rows, each row listing its values in column order. -/
structure DF where
  cols : List String
  rows : List (List Val)
deriving DecidableEq

/-- Lookup in a Python dict modelled as an association list with unique
keys (`schema_map[col]` when `col in schema_map`, else `none`). -/
def lookupKey : List (String × String) → String → Option String
  | [], _ => none
  | (k, v) :: rest, c => if k = c then some v else lookupKey rest c

/-- Index of the first occurrence of a column name (length of the list when
absent). -/
def idxOfStr : List String → String → Nat
  | [], _ => 0
  | c2 :: rest, c => if c2 = c then 0 else idxOfStr rest c + 1

/-- Lines 107-112: `rename_dict`, collecting the columns of the frame that
occur as keys of the schema map together with their target names. -/
def renameDictOf (m : List (String × String)) (cols : List String) :
    List (String × String) :=
  cols.filterMap (fun c =>
    match lookupKey m c with
    | some v => some (c, v)
    | none => none)

/-- The column names after applying a rename dict: a key of the dict is
replaced by its value, every other name is kept. -/
def applyRenameCols (rd : List (String × String)) (cols : List String) :
    List String :=
  cols.map (fun c =>
    match lookupKey rd c with
    | some v => v
    | none => c)

/-- Line 116: `df.rename(rename_dict)`.  Polars raises a `DuplicateError`
when the renamed frame would have two columns with the same name (frames
always have unique column names); we model the raise as `none`. -/
def applyRename (rd : List (String × String)) (df : DF) : Option DF :=
  let newCols := applyRenameCols rd df.cols
  if newCols.Nodup then some { cols := newCols, rows := df.rows } else none

/-- Line 120: cast every cell of the frame to text; columns and row order
are untouched. -/
def castDF (df : DF) : DF :=
  { cols := df.cols, rows := df.rows.map (fun r => r.map castVal) }

/-- Lines 105-120: the per-file transformation of `ingest_files` after a
successful parse: build the rename dict when a schema map is given, rename
when the dict is nonempty (`if rename_dict:`), then cast to text.  `none`
models the rename raising inside the `try` block. -/
def processDF (sm : Option (List (String × String))) (df : DF) : Option DF :=
  match sm with
  | none => some (castDF df)
  | some m =>
    let rd := renameDictOf m df.cols
    if rd.isEmpty then some (castDF df)
    else
      match applyRename rd df with
      | none => none
      | some df2 => some (castDF df2)

/-- The column set of `pl.concat(batch, how="diagonal")` (line 127): the
union of the column names of the frames, ordered by first appearance. -/
def unionCols (dfs : List DF) : List String :=
  dfs.foldl (fun acc d => acc ++ d.cols.filter (fun c => decide (c ∉ acc))) []

/-- Align one row of a source frame to the union columns: a column of the
source keeps the value of the row at the position of that column, a column
the source lacks gets the explicit null marker. -/
def alignRow (u : List String) (cols : List String) (row : List Val) :
    List Val :=
  u.map (fun c => if c ∈ cols then row.getD (idxOfStr cols c) Val.vNull
                  else Val.vNull)

/-- Restrict an aligned row back to a set of source columns (used to state
that alignment loses no data). -/
def projectRow (u : List String) (cols : List String) (row : List Val) :
    List Val :=
  cols.map (fun c => row.getD (idxOfStr u c) Val.vNull)

/-- Line 127: `pl.concat(current_batch, how="diagonal")` — union the column
names, stack every row of every frame in order, null-filling the columns a
source frame lacks. -/
def concatDiagonal (dfs : List DF) : DF :=
  { cols := unionCols dfs
  , rows := (dfs.map (fun d => d.rows.map (alignRow (unionCols dfs) d.cols))).flatten }

/-- The relational sink: each table holds the list of frames appended to it
(append-only writes, line 131-137). -/
abbrev DB : Type := List (String × List DF)

/-- Content of a table (empty when the table does not exist). -/
def tableContent : DB → String → List DF
  | [], _ => []
  | (t2, ds) :: rest, t => if t2 = t then ds else tableContent rest t

/-- Lines 169-170: `DROP TABLE IF EXISTS` — remove the table when present,
do nothing (and do not fail) when absent. -/
def dropTable : DB → String → DB
  | [], _ => []
  | (t2, ds) :: rest, t =>
    if t2 = t then dropTable rest t else (t2, ds) :: dropTable rest t

/-- Lines 131-137: `to_sql` with the append mode — append the frame to
the table, creating the table on first write. -/
def appendTable : DB → String → DF → DB
  | [], t, d => [(t, [d])]
  | (t2, ds) :: rest, t, d =>
    if t2 = t then (t2, ds ++ [d]) :: rest
    else (t2, ds) :: appendTable rest t d

/-- The mutable state of one `ingest_files` run: the current batch, the
database, the trace of frames the sink received, the number of `to_sql`
calls made so far (used to address the environment model of sink failures)
and the number of executed `except` branches. -/
structure IngestState where
  batch : List DF
  db : DB
  writes : List DF
  attempts : Nat
  errors : Nat

/-- Lines 99-145: the body of the `for i, file_path in enumerate(files)`
loop for one file.  `file = none` models `pl.read_csv` raising;
`processDF … = none` models the rename raising; both land in the `except`
branch which only logs.  When the batch reaches `K` frames or the file is
the last one, the batch is flushed: the guard `if current_batch:` skips the
write on an empty batch, a successful `to_sql` appends to the table and the
batch is cleared, a raising `to_sql` lands in the `except` branch before
the clearing line 141 runs, so the batch is kept. -/
def processFile (table : String) (sm : Option (List (String × String)))
    (K total : Nat) (ok : Nat → Bool) (st : IngestState) (i : Nat)
    (file : Option DF) : IngestState :=
  match file with
  | none => { st with errors := st.errors + 1 }
  | some df =>
    match processDF sm df with
    | none => { st with errors := st.errors + 1 }
    | some ndf =>
      let batch1 := st.batch ++ [ndf]
      if K ≤ batch1.length ∨ i = total - 1 then
        if batch1.isEmpty then
          { st with batch := [] }
        else
          let combined := concatDiagonal batch1
          if ok st.attempts then
            { batch := []
            , db := appendTable st.db table combined
            , writes := st.writes ++ [combined]
            , attempts := st.attempts + 1
            , errors := st.errors }
          else
            { st with batch := batch1, attempts := st.attempts + 1,
                      errors := st.errors + 1 }
      else
        { st with batch := batch1 }

/-- The file loop of `ingest_files`, processing the discovered files in
enumeration order. -/
def ingestLoop (table : String) (sm : Option (List (String × String)))
    (K total : Nat) (ok : Nat → Bool) :
    List (Option DF) → Nat → IngestState → IngestState
  | [], _, st => st
  | f :: rest, i, st =>
      ingestLoop table sm K total ok rest (i + 1)
        (processFile table sm K total ok st i f)

/-- Fresh state at the top of `ingest_files` (empty batch, no writes). -/
def initState (db : DB) : IngestState :=
  { batch := [], db := db, writes := [], attempts := 0, errors := 0 }

/-- Definition of `ingest_files` with the batch size abstracted (the source fixes it to
500 in line 93).  The file list stands for the ordered enumeration the
glob discoverer produced, each file abstracted to its parse outcome. -/
def ingestFilesK (table : String) (sm : Option (List (String × String)))
    (K : Nat) (ok : Nat → Bool) (db : DB) (files : List (Option DF)) :
    IngestState :=
  ingestLoop table sm K files.length ok files 0 (initState db)

/-- Line 93: `batch_size = 500`. -/
def batch_size : Nat := 500

/-- Lines 63-149: `ingest_files` as the source runs it, with the batch size
fixed to 500. -/
def ingest_files (table : String) (sm : Option (List (String × String)))
    (ok : Nat → Bool) (db : DB) (files : List (Option DF)) : IngestState :=
  ingestFilesK table sm batch_size ok db files

/-- Lines 36-50: `SALES_SCHEMA_MAP`. -/
def SALES_SCHEMA_MAP : List (String × String) :=
  [ ("qty", "quantity")
  , ("quant", "quantity")
  , ("count", "quantity")
  , ("price", "unit_price")
  , ("cost", "unit_price")
  , ("tx_id", "transaction_id")
  , ("txn_id", "transaction_id")
  , ("prod_id", "product_id")
  , ("item_id", "product_id")
  , ("total", "total_amount")
  , ("amount", "total_amount")
  , ("date", "transaction_timestamp")
  , ("timestamp", "transaction_timestamp") ]

/-- Lines 152-184: `main` — drop both raw tables once at the top, then run
the sales ingestion (with the sales schema map) and the inventory ingestion
(without a schema map).  The two runs receive their own sink-failure
environments; the attempt counter restarts per run because each call owns
its loop state. -/
def mainPipeline (ok1 ok2 : Nat → Bool) (db : DB)
    (salesFiles invFiles : List (Option DF)) : DB :=
  let db1 := dropTable (dropTable db "raw_sales") "raw_inventory"
  let st1 := ingest_files "raw_sales" (some SALES_SCHEMA_MAP) ok1 db1 salesFiles
  let st2 := ingest_files "raw_inventory" none ok2 st1.db invFiles
  st2.db

/-! ### Basic lemmas about the helpers -/

lemma idxOfStr_lt_length {c : String} :
    ∀ {l : List String}, c ∈ l → idxOfStr l c < l.length := by
  intro l
  induction l with
  | nil => intro h; cases h
  | cons c2 rest ih =>
    intro hmem
    by_cases hc : c2 = c
    · simp [idxOfStr, hc]
    · rcases List.mem_cons.mp hmem with hh | ht
      · exact absurd hh.symm hc
      · simpa [idxOfStr, hc] using ih ht

lemma getD_idxOfStr {c : String} :
    ∀ {l : List String}, c ∈ l → l.getD (idxOfStr l c) "" = c := by
  intro l
  induction l with
  | nil => intro h; cases h
  | cons c2 rest ih =>
    intro hmem
    by_cases hc : c2 = c
    · simp [idxOfStr, hc]
    · rcases List.mem_cons.mp hmem with hh | ht
      · exact absurd hh.symm hc
      · simpa [idxOfStr, hc] using ih ht

lemma getD_map_of_lt (f : String → Val) :
    ∀ (l : List String) (i : Nat), i < l.length →
      (l.map f).getD i Val.vNull = f (l.getD i "")
  | [], i, h => absurd h (by simp)
  | _ :: _, 0, _ => rfl
  | _ :: rest, i + 1, h => getD_map_of_lt f rest i (by simpa using h)

lemma mem_unionCols_aux (c : String) :
    ∀ (dfs : List DF) (acc : List String),
      c ∈ dfs.foldl
            (fun acc d => acc ++ d.cols.filter (fun x => decide (x ∉ acc))) acc
        ↔ c ∈ acc ∨ ∃ d, d ∈ dfs ∧ c ∈ d.cols := by
  intro dfs
  induction dfs with
  | nil => intro acc; simp
  | cons d rest ih =>
    intro acc
    rw [List.foldl_cons, ih]
    constructor
    · rintro (hstep | ⟨d2, hd2, hc2⟩)
      · rcases List.mem_append.mp hstep with hacc | hfil
        · exact Or.inl hacc
        · have := (List.mem_filter.mp hfil).1
          exact Or.inr ⟨d, List.mem_cons_self d rest, this⟩
      · exact Or.inr ⟨d2, List.mem_cons_of_mem d hd2, hc2⟩
    · rintro (hacc | ⟨d2, hd2, hc2⟩)
      · exact Or.inl (List.mem_append.mpr (Or.inl hacc))
      · rcases List.mem_cons.mp hd2 with rfl | htail
        · by_cases hin : c ∈ acc
          · exact Or.inl (List.mem_append.mpr (Or.inl hin))
          · exact Or.inl (List.mem_append.mpr (Or.inr
              (List.mem_filter.mpr ⟨hc2, by simpa using hin⟩)))
        · exact Or.inr ⟨d2, htail, hc2⟩

lemma mem_unionCols {c : String} {dfs : List DF} :
    c ∈ unionCols dfs ↔ ∃ d, d ∈ dfs ∧ c ∈ d.cols := by
  unfold unionCols
  rw [mem_unionCols_aux]
  simp

lemma cols_subset_unionCols {d : DF} {dfs : List DF} (hd : d ∈ dfs) :
    ∀ c ∈ d.cols, c ∈ unionCols dfs := by
  intro c hc
  exact mem_unionCols.mpr ⟨d, hd, hc⟩

lemma lookupKey_none_renameDictOf {m : List (String × String)} {c : String}
    (h : lookupKey m c = none) :
    ∀ (cols : List String), lookupKey (renameDictOf m cols) c = none := by
  intro cols
  induction cols with
  | nil => rfl
  | cons c2 rest ih =>
    by_cases hc : c2 = c
    · subst hc
      simp only [renameDictOf, List.filterMap_cons]
      cases hm : lookupKey m c2 with
      | none => simpa [renameDictOf] using ih
      | some v => exact absurd hm (by simp [h])
    · simp only [renameDictOf, List.filterMap_cons]
      cases hm : lookupKey m c2 with
      | none => simpa [renameDictOf] using ih
      | some v =>
        simp only [lookupKey, if_neg hc]
        simpa [renameDictOf] using ih

lemma lookupKey_renameDictOf (m : List (String × String)) :
    ∀ (cols : List String) (c : String), c ∈ cols →
      lookupKey (renameDictOf m cols) c = lookupKey m c := by
  intro cols
  induction cols with
  | nil => intro c hc; cases hc
  | cons c2 rest ih =>
    intro c hc
    by_cases heq : c2 = c
    · subst heq
      simp only [renameDictOf, List.filterMap_cons]
      cases hm : lookupKey m c2 with
      | none => exact lookupKey_none_renameDictOf hm rest
      | some v => simp [lookupKey]
    · rcases List.mem_cons.mp hc with hh | ht
      · exact absurd hh.symm heq
      · simp only [renameDictOf, List.filterMap_cons]
        cases hm : lookupKey m c2 with
        | none => simpa [renameDictOf] using ih c ht
        | some v =>
          simp only [lookupKey, if_neg heq]
          simpa [renameDictOf] using ih c ht

lemma applyRenameCols_nil_dict (cols : List String) :
    applyRenameCols [] cols = cols := by
  simp [applyRenameCols, lookupKey]

lemma map_getD_idxOfStr :
    ∀ (cols : List String) (row : List Val), cols.Nodup →
      row.length = cols.length →
      cols.map (fun c => row.getD (idxOfStr cols c) Val.vNull) = row := by
  intro cols
  induction cols with
  | nil =>
    intro row _ hlen
    cases row with
    | nil => rfl
    | cons v vs => simp at hlen
  | cons c cs ih =>
    intro row hnd hlen
    cases row with
    | nil => simp at hlen
    | cons v vs =>
      obtain ⟨hnotin, hndtail⟩ := List.nodup_cons.mp hnd
      have hlen2 : vs.length = cs.length := by simpa using hlen
      simp only [List.map_cons]
      have hhead : (v :: vs).getD (idxOfStr (c :: cs) c) Val.vNull = v := by
        simp [idxOfStr]
      have hcongr : cs.map (fun x => (v :: vs).getD (idxOfStr (c :: cs) x) Val.vNull)
          = cs.map (fun x => vs.getD (idxOfStr cs x) Val.vNull) := by
        apply List.map_congr_left
        intro x hx
        have hne : ¬ (c = x) := fun h => hnotin (h ▸ hx)
        simp [idxOfStr, hne]
      rw [hhead, hcongr, ih vs hndtail hlen2]

lemma projectRow_alignRow (u cols : List String) (row : List Val)
    (hsub : ∀ c ∈ cols, c ∈ u) (hnd : cols.Nodup)
    (hlen : row.length = cols.length) :
    projectRow u cols (alignRow u cols row) = row := by
  unfold projectRow alignRow
  have hstep : cols.map (fun c =>
      (u.map (fun c2 => if c2 ∈ cols then row.getD (idxOfStr cols c2) Val.vNull
                        else Val.vNull)).getD (idxOfStr u c) Val.vNull)
      = cols.map (fun c => row.getD (idxOfStr cols c) Val.vNull) := by
    apply List.map_congr_left
    intro c hc
    have hcu : c ∈ u := hsub c hc
    rw [getD_map_of_lt _ u (idxOfStr u c) (idxOfStr_lt_length hcu),
        getD_idxOfStr hcu, if_pos hc]
  rw [hstep]
  exact map_getD_idxOfStr cols row hnd hlen

/-! ### Concrete fixtures used by witnesses and counterexamples -/

/-- A one-column, one-row frame (column `a`). -/
def dfColA : DF := { cols := ["a"], rows := [[Val.vStr "x"]] }

/-- A one-column, one-row frame (column `b`). -/
def dfColB : DF := { cols := ["b"], rows := [[Val.vStr "y"]] }

/-- A frame whose columns `qty` and `quantity` collide under the sales
schema map. -/
def dfCollide : DF :=
  { cols := ["qty", "quantity"], rows := [[Val.vStr "3", Val.vStr "4"]] }

/-! ### Claim C3 — the rename plan -/

/-- C3: for every rename table `m` and column sequence `cols`, the rename
plan maps each column to exactly one output name (the applied plan is a
pointwise map, so its length equals the number of columns): a column that is
a key of `m` goes to the value of `m` for it, a column absent from `m` goes
to itself, and when no rename table is configured the per-file processing
leaves every column name unchanged. -/
theorem c3_normalize_identity (m : List (String × String)) (cols : List String) :
    applyRenameCols (renameDictOf m cols) cols
      = cols.map (fun c => (lookupKey m c).getD c)
    ∧ (applyRenameCols (renameDictOf m cols) cols).length = cols.length
    ∧ (∀ c ∈ cols, lookupKey m c = none →
        (lookupKey (renameDictOf m cols) c).getD c = c)
    ∧ (∀ df : DF, processDF none df = some (castDF df)
        ∧ (castDF df).cols = df.cols) := by
  refine ⟨?_, ?_, ?_, ?_⟩
  · unfold applyRenameCols
    apply List.map_congr_left
    intro c hc
    rw [lookupKey_renameDictOf m cols c hc]
    cases hm : lookupKey m c <;> simp [hm]
  · exact List.length_map _ _
  · intro c hc hnone
    rw [lookupKey_renameDictOf m cols c hc, hnone]
    rfl
  · intro df
    exact ⟨rfl, rfl⟩

/-- Witness for C3 at a concrete input: `store_id` is not a key of the
sales schema map, so the plan built for `["qty", "store_id"]` maps it to
itself. -/
theorem c3_normalize_identity_witness :
    (lookupKey (renameDictOf SALES_SCHEMA_MAP ["qty", "store_id"])
        "store_id").getD "store_id" = "store_id" :=
  (c3_normalize_identity SALES_SCHEMA_MAP ["qty", "store_id"]).2.2.1
    "store_id" (by decide) (by decide)

/-! ### Claim C6 — the cast to text -/

/-- C6: the cast to the uniform textual representation is total (it is a
function on all cell values — text, integer, float, boolean, null),
idempotent, fixes values that are already text, sends every float to its
textual rendering, sends null to null and to nothing else, and sends every
non-null value to some text (never leaving a null behind or producing
one). -/
theorem c6_cast_total_idempotent :
    (∀ v : Val, castVal (castVal v) = castVal v)
    ∧ (∀ s : String, castVal (Val.vStr s) = Val.vStr s)
    ∧ castVal Val.vNull = Val.vNull
    ∧ (∀ m e : Int, castVal (Val.vFloat m e) = Val.vStr (floatRepr m e))
    ∧ (∀ v : Val, castVal v = Val.vNull ↔ v = Val.vNull)
    ∧ (∀ v : Val, castVal v = Val.vNull ∨ ∃ s, castVal v = Val.vStr s) := by
  refine ⟨?_, fun s => rfl, rfl, fun m e => rfl, ?_, ?_⟩
  · intro v; cases v <;> rfl
  · intro v; cases v <;> simp [castVal]
  · intro v; cases v <;> simp [castVal]

/-! ### Claim C7 — rename collisions -/

/-- C7 counterexample: for the sales schema map and a file whose columns
are `qty` and `quantity`, the rename plan sends both to `quantity`;
applying the plan does not succeed — the rename raises on the duplicate
output name (modelled as `none`), so no Record Set with fewer effective
columns is produced, refuting the claim at this input. -/
theorem c7_counterexample :
    processDF (some SALES_SCHEMA_MAP) dfCollide = none := by decide

/-- C7 as amended: when the rename plan would map two distinct columns of a
frame (whose own column names are unique, as polars guarantees) to the same
output name, applying the plan deterministically fails instead of yielding
a Record Set with fewer columns, and inside the ingestion loop the file is
skipped as a recoverable file-level failure: the state only records one
more error. -/
theorem c7_collision_skips (m : List (String × String)) (df : DF)
    (hnd : df.cols.Nodup)
    (hcol : ¬ (applyRenameCols (renameDictOf m df.cols) df.cols).Nodup) :
    processDF (some m) df = none
    ∧ ∀ (table : String) (K total : Nat) (ok : Nat → Bool)
        (st : IngestState) (i : Nat),
        processFile table (some m) K total ok st i (some df)
          = { st with errors := st.errors + 1 } := by
  have hne : (renameDictOf m df.cols).isEmpty = false := by
    cases hrd : renameDictOf m df.cols with
    | nil =>
      exact absurd (by rw [hrd, applyRenameCols_nil_dict]; exact hnd) hcol
    | cons p rest => rfl
  have happ : applyRename (renameDictOf m df.cols) df = none := by
    simp only [applyRename]
    rw [if_neg hcol]
  have hmain : processDF (some m) df = none := by
    simp only [processDF, hne, happ, Bool.false_eq_true, if_false]
  refine ⟨hmain, ?_⟩
  intro table K total ok st i
  simp only [processFile, hmain]

/-- Witness for C7 as amended, at the concrete colliding input. -/
theorem c7_collision_skips_witness :
    processDF (some SALES_SCHEMA_MAP) dfCollide = none :=
  (c7_collision_skips SALES_SCHEMA_MAP dfCollide (by decide) (by decide)).1

/-! ### Claim C4 — the reconciled wide record set -/

/-- C4: the diagonal concatenation of a batch has as columns exactly the
union of the column sets of the batch, keeps every row of every frame (the
row total is the sum of the row totals), gives every emitted row one entry
per union column, and puts the explicit null marker in every union column
that the source frame of the row lacks. -/
theorem c4_reconciled_wide (dfs : List DF) :
    (∀ c, c ∈ (concatDiagonal dfs).cols ↔ ∃ d, d ∈ dfs ∧ c ∈ d.cols)
    ∧ (concatDiagonal dfs).rows.length = (dfs.map (fun d => d.rows.length)).sum
    ∧ (∀ r ∈ (concatDiagonal dfs).rows,
        r.length = (concatDiagonal dfs).cols.length)
    ∧ (∀ d ∈ dfs, ∀ r ∈ d.rows, ∀ i, i < (unionCols dfs).length →
        (unionCols dfs).getD i "" ∉ d.cols →
        (alignRow (unionCols dfs) d.cols r).getD i Val.vNull = Val.vNull) := by
  refine ⟨?_, ?_, ?_, ?_⟩
  · intro c
    exact mem_unionCols
  · show ((dfs.map fun d => d.rows.map (alignRow (unionCols dfs) d.cols)).flatten).length
        = (dfs.map (fun d => d.rows.length)).sum
    rw [List.length_flatten, List.map_map]
    congr 1
    apply List.map_congr_left
    intro d _
    exact List.length_map _ _
  · intro r hr
    rcases List.mem_flatten.mp hr with ⟨l, hl, hrl⟩
    rcases List.mem_map.mp hl with ⟨d, _, rfl⟩
    rcases List.mem_map.mp hrl with ⟨r0, _, rfl⟩
    exact List.length_map _ _
  · intro d _ r _ i hi hnot
    unfold alignRow
    rw [getD_map_of_lt _ _ _ hi, if_neg hnot]

/-- Witness for C4 at a concrete batch: in the union `["a", "b"]` of two
one-column frames, the row coming from the `a`-frame carries the null
marker in the `b` column. -/
theorem c4_reconciled_wide_witness :
    (alignRow (unionCols [dfColA, dfColB]) dfColA.cols
        [Val.vStr "x"]).getD 1 Val.vNull = Val.vNull :=
  (c4_reconciled_wide [dfColA, dfColB]).2.2.2 dfColA (by decide)
    [Val.vStr "x"] (by decide) 1 (by decide) (by decide)

/-! ### Claim C10 — flushes preserve order and content -/

/-- C10: a flush writes the rows of the batch frames concatenated in batch
order, each row aligned to the union columns; restricting an aligned row
back to the columns of its source frame recovers exactly the source row
(so no row is reordered or altered beyond null-padding), and neither the
rename nor the cast to text touches row order (the rename keeps the row
list, the cast maps it in place). -/
theorem c10_flush_order (dfs : List DF) :
    (concatDiagonal dfs).rows
      = (dfs.map (fun d => d.rows.map (alignRow (unionCols dfs) d.cols))).flatten
    ∧ (∀ d ∈ dfs, d.cols.Nodup → ∀ r ∈ d.rows, r.length = d.cols.length →
        projectRow (unionCols dfs) d.cols (alignRow (unionCols dfs) d.cols r) = r)
    ∧ (∀ (rd : List (String × String)) (df d2 : DF),
        applyRename rd df = some d2 → d2.rows = df.rows)
    ∧ (∀ df : DF, (castDF df).rows = df.rows.map (fun r => r.map castVal)) := by
  refine ⟨rfl, ?_, ?_, fun df => rfl⟩
  · intro d hd hnd r _ hlen
    exact projectRow_alignRow _ _ _ (cols_subset_unionCols hd) hnd hlen
  · intro rd df d2 h
    simp only [applyRename] at h
    split at h
    · injection h with h2
      rw [← h2]
    · cases h

/-- Witness for C10 at a concrete batch: the aligned row of the `b`-frame,
restricted back to column `b`, is the original row. -/
theorem c10_flush_order_witness :
    projectRow (unionCols [dfColA, dfColB]) dfColB.cols
        (alignRow (unionCols [dfColA, dfColB]) dfColB.cols [Val.vStr "y"])
      = [Val.vStr "y"] :=
  (c10_flush_order [dfColA, dfColB]).2.1 dfColB (by decide) (by decide)
    [Val.vStr "y"] (by decide) (by decide)

/-! ### Claim C1 — the flush schedule -/

lemma isEmpty_append_singleton (l : List DF) (d : DF) :
    (l ++ [d]).isEmpty = false := by
  cases l <;> rfl

lemma ceil_div_of_bounds {w total K : Nat} (h1 : total ≤ w * K)
    (h2 : w * K < total + K) : (total + K - 1) / K = w := by
  apply Nat.div_eq_of_lt_le
  · omega
  · rw [Nat.succ_mul]
    omega

/-- Invariant of the file loop when every file processes successfully and
the sink accepts every write: starting with `i` files already handled, a
batch holding `i mod K` frames and `i div K` writes made (stated linearly:
`batch + writes * K = i` with `batch < K`), after the remaining nonempty
file list the batch is empty and the number of writes is the least `w` with
`total ≤ w * K`. -/
lemma ingestLoop_flush_count (table : String) (sm : Option (List (String × String)))
    (K : Nat) (hK : 0 < K) :
    ∀ (fs : List (Option DF)) (i total : Nat) (st : IngestState),
      total = i + fs.length →
      fs ≠ [] →
      (∀ f ∈ fs, (f.bind (processDF sm)).isSome) →
      st.batch.length + st.writes.length * K = i →
      st.batch.length < K →
      (ingestLoop table sm K total (fun _ => true) fs i st).batch = []
      ∧ total ≤ (ingestLoop table sm K total (fun _ => true) fs i st).writes.length * K
      ∧ (ingestLoop table sm K total (fun _ => true) fs i st).writes.length * K
          < total + K := by
  intro fs
  induction fs with
  | nil => intro i total st _ hne; exact absurd rfl hne
  | cons f rest ih =>
    intro i total st htot _ hok hinv hblt
    have hhead := hok f (List.mem_cons_self f rest)
    obtain ⟨d, rfl⟩ : ∃ d, f = some d := by
      cases f with
      | none => simp at hhead
      | some d => exact ⟨d, rfl⟩
    obtain ⟨nd, hnd⟩ : ∃ nd, processDF sm d = some nd := by
      cases hpd : processDF sm d with
      | none => rw [Option.some_bind, hpd] at hhead; simp at hhead
      | some nd => exact ⟨nd, rfl⟩
    simp only [ingestLoop]
    cases rest with
    | nil =>
      -- the current file is the last one: the flush triggers and succeeds
      have hlast : i = total - 1 := by simp at htot; omega
      have hstep : processFile table sm K total (fun _ => true) st i (some d)
          = { batch := []
            , db := appendTable st.db table (concatDiagonal (st.batch ++ [nd]))
            , writes := st.writes ++ [concatDiagonal (st.batch ++ [nd])]
            , attempts := st.attempts + 1
            , errors := st.errors } := by
        simp only [processFile, hnd]
        rw [if_pos (Or.inr hlast : K ≤ (st.batch ++ [nd]).length ∨ i = total - 1),
            isEmpty_append_singleton]
        simp
      rw [ingestLoop, hstep]
      have hw : (st.writes ++ [concatDiagonal (st.batch ++ [nd])]).length
          = st.writes.length + 1 := by simp
      refine ⟨rfl, ?_, ?_⟩ <;>
        · simp only [hw, Nat.succ_mul]
          simp at htot
          omega
    | cons f2 rest2 =>
      -- more files follow: the current one is not the last
      have hnotlast : ¬ i = total - 1 := by simp at htot; omega
      by_cases hflush : K ≤ (st.batch ++ [nd]).length
      · -- the batch reached the configured size: flush and clear
        have hstep : processFile table sm K total (fun _ => true) st i (some d)
            = { batch := []
              , db := appendTable st.db table (concatDiagonal (st.batch ++ [nd]))
              , writes := st.writes ++ [concatDiagonal (st.batch ++ [nd])]
              , attempts := st.attempts + 1
              , errors := st.errors } := by
          simp only [processFile, hnd]
          rw [if_pos (Or.inl hflush : K ≤ (st.batch ++ [nd]).length ∨ i = total - 1),
              isEmpty_append_singleton]
          simp
        rw [hstep]
        apply ih (i + 1) total _ (by simp at htot ⊢; omega) (by simp)
          (fun g hg => hok g (List.mem_cons_of_mem _ hg))
        · show (0:Nat) + (st.writes ++ [concatDiagonal (st.batch ++ [nd])]).length * K
              = i + 1
          have hb1 : (st.batch ++ [nd]).length = st.batch.length + 1 := by simp
          simp only [List.length_append, List.length_cons, List.length_nil,
            Nat.succ_mul]
          rw [hb1] at hflush
          omega
        · simpa using hK
      · -- the batch stays below the size and the file is not the last:
        -- just append to the batch
        have hstep : processFile table sm K total (fun _ => true) st i (some d)
            = { st with batch := st.batch ++ [nd] } := by
          simp only [processFile, hnd]
          rw [if_neg]
          rintro (h1 | h2)
          · exact hflush h1
          · exact hnotlast h2
        rw [hstep]
        apply ih (i + 1) total _ (by simp at htot ⊢; omega) (by simp)
          (fun g hg => hok g (List.mem_cons_of_mem _ hg))
        · show (st.batch ++ [nd]).length + st.writes.length * K = i + 1
          simp only [List.length_append, List.length_cons, List.length_nil]
          omega
        · show (st.batch ++ [nd]).length < K
          have hb1 : (st.batch ++ [nd]).length = st.batch.length + 1 := by simp
          omega

/-- C1: with every file parsed and processed successfully and the sink
accepting every write, an ingestion run with batch size `K` flushes on
reaching `K` batched record sets or on the last file, so the sink receives
exactly `ceil(N / K)` writes for `N` input files, and the remainder batch
is always flushed: the final batch is empty.  The source fixes `K` to 500
(`ingest_files = ingestFilesK … batch_size`). -/
theorem c1_flush_schedule (table : String) (sm : Option (List (String × String)))
    (K : Nat) (hK : 0 < K) (db : DB) (files : List (Option DF))
    (hok : ∀ f ∈ files, (f.bind (processDF sm)).isSome) :
    (ingestFilesK table sm K (fun _ => true) db files).writes.length
        = (files.length + K - 1) / K
    ∧ (ingestFilesK table sm K (fun _ => true) db files).batch = [] := by
  cases files with
  | nil =>
    constructor
    · show (0:Nat) = (0 + K - 1) / K
      rw [Nat.zero_add]
      exact (Nat.div_eq_of_lt (by omega)).symm
    · rfl
  | cons f rest =>
    obtain ⟨hb, hlo, hhi⟩ := ingestLoop_flush_count table sm K hK (f :: rest) 0
      ((f :: rest).length) (initState db) (by simp) (by simp) hok
      (by simp [initState]) (by simpa [initState] using hK)
    exact ⟨(ceil_div_of_bounds hlo hhi).symm, hb⟩

/-- Witness for C1: three one-row files with batch size two yield two sink
writes and an empty final batch. -/
theorem c1_flush_schedule_witness :
    (ingestFilesK "t" none 2 (fun _ => true) []
        [some dfColA, some dfColA, some dfColB]).writes.length
      = (3 + 2 - 1) / 2
    ∧ (ingestFilesK "t" none 2 (fun _ => true) []
        [some dfColA, some dfColA, some dfColB]).batch = [] :=
  c1_flush_schedule "t" none 2 (by decide) []
    [some dfColA, some dfColA, some dfColB] (by decide)

/-! ### Claim C2 — a failed flush write does not abort the run -/

/-- A sink environment in which the first `to_sql` call raises and every
later call succeeds. -/
def failFirst : Nat → Bool := fun a => !(a == 0)

/-- Number of rows of the diagonal concatenation: every row of every frame
of the batch survives. -/
lemma concatDiagonal_rows_length (dfs : List DF) :
    (concatDiagonal dfs).rows.length = (dfs.map (fun d => d.rows.length)).sum := by
  show ((dfs.map fun d => d.rows.map (alignRow (unionCols dfs) d.cols)).flatten).length
      = (dfs.map (fun d => d.rows.length)).sum
  rw [List.length_flatten, List.map_map]
  congr 1
  apply List.map_congr_left
  intro d _
  exact List.length_map _ _

/-- Splitting the file loop over a concatenation of file lists. -/
lemma ingestLoop_append (table : String) (sm : Option (List (String × String)))
    (K total : Nat) (ok : Nat → Bool) :
    ∀ (fs1 fs2 : List (Option DF)) (i : Nat) (st : IngestState),
      ingestLoop table sm K total ok (fs1 ++ fs2) i st
        = ingestLoop table sm K total ok fs2 (i + fs1.length)
            (ingestLoop table sm K total ok fs1 i st) := by
  intro fs1
  induction fs1 with
  | nil => intro fs2 i st; simp [ingestLoop]
  | cons f rest ih =>
    intro fs2 i st
    rw [List.cons_append]
    simp only [ingestLoop, List.length_cons]
    rw [ih, show i + 1 + rest.length = i + (rest.length + 1) by omega]

/-- A run over files that process successfully only accumulates in the
batch as long as the batch stays below the configured size and the last
file is not reached. -/
lemma ingestLoop_no_flush (table : String) (sm : Option (List (String × String)))
    (K total : Nat) (ok : Nat → Bool) (d nd : DF)
    (hnd : processDF sm d = some nd) :
    ∀ (m i : Nat) (st : IngestState),
      st.batch.length + m < K →
      i + m < total →
      ingestLoop table sm K total ok (List.replicate m (some d)) i st
        = { st with batch := st.batch ++ List.replicate m nd } := by
  intro m
  induction m with
  | zero =>
    intro i st _ _
    simp [ingestLoop]
  | succ m ih =>
    intro i st hb hi
    have hstep : processFile table sm K total ok st i (some d)
        = { st with batch := st.batch ++ [nd] } := by
      simp only [processFile, hnd]
      rw [if_neg]
      rintro (h1 | h2)
      · simp at h1; omega
      · omega
    simp only [List.replicate_succ, ingestLoop, hstep]
    rw [ih (i + 1) _ (by simp; omega) (by omega)]
    simp [List.replicate_succ]

/-- C2 counterexample: 501 identical one-row files with the default batch
size 500 and a sink whose first write raises.  The loop catches the raise
in the same `except` branch as file errors (one error logged), keeps going,
processes the 501st file and flushes all 501 record sets successfully — so
the run is not aborted and files after the failed flush are still
processed, refuting the claim. -/
theorem c2_counterexample :
    (ingest_files "raw_sales" none failFirst []
        (List.replicate 501 (some dfColA))).errors = 1
    ∧ (ingest_files "raw_sales" none failFirst []
        (List.replicate 501 (some dfColA))).writes.map (fun d => d.rows.length)
      = [501] := by
  have hnd : processDF none dfColA = some (castDF dfColA) := rfl
  have hrun : ingest_files "raw_sales" none failFirst []
      (List.replicate 501 (some dfColA))
      = { batch := []
        , db := appendTable [] "raw_sales"
            (concatDiagonal (List.replicate 501 (castDF dfColA)))
        , writes := [concatDiagonal (List.replicate 501 (castDF dfColA))]
        , attempts := 2
        , errors := 1 } := by
    show ingestLoop "raw_sales" none batch_size
        (List.replicate 501 (some dfColA)).length failFirst
        (List.replicate 501 (some dfColA)) 0 (initState []) = _
    have h501 : (List.replicate 501 (some (dfColA : DF))).length = 501 := by
      simp
    rw [h501]
    have hsplit : List.replicate 501 (some (dfColA : DF))
        = List.replicate 499 (some dfColA) ++ List.replicate 2 (some dfColA) := by
      rw [← List.replicate_add]
    rw [hsplit, ingestLoop_append]
    rw [ingestLoop_no_flush "raw_sales" none batch_size 501 failFirst dfColA
      (castDF dfColA) hnd 499 0 (initState [])
      (by simp only [initState, batch_size, List.length_nil]; omega) (by omega)]
    simp only [List.length_replicate, Nat.zero_add]
    have h2 : List.replicate 2 (some (dfColA : DF))
        = [some dfColA, some dfColA] := rfl
    rw [h2]
    rw [show ({ initState [] with
          batch := (initState []).batch
            ++ List.replicate 499 (castDF dfColA) } : IngestState)
        = { batch := List.replicate 499 (castDF dfColA), db := []
          , writes := [], attempts := 0, errors := 0 } from rfl]
    have hstep1 : processFile "raw_sales" none batch_size 501 failFirst
        { batch := List.replicate 499 (castDF dfColA), db := []
        , writes := [], attempts := 0, errors := 0 } 499 (some dfColA)
        = { batch := List.replicate 499 (castDF dfColA) ++ [castDF dfColA]
          , db := [], writes := [], attempts := 1, errors := 1 } := by
      simp only [processFile, hnd]
      rw [if_pos (Or.inl (by simp [batch_size]) :
            batch_size ≤ (List.replicate 499 (castDF dfColA)
              ++ [castDF dfColA]).length ∨ 499 = 501 - 1),
          isEmpty_append_singleton,
          show failFirst 0 = false from rfl]
      simp
    have hstep2 : processFile "raw_sales" none batch_size 501 failFirst
        { batch := List.replicate 499 (castDF dfColA) ++ [castDF dfColA]
        , db := [], writes := [], attempts := 1, errors := 1 } 500 (some dfColA)
        = { batch := []
          , db := appendTable [] "raw_sales" (concatDiagonal
              ((List.replicate 499 (castDF dfColA) ++ [castDF dfColA])
                ++ [castDF dfColA]))
          , writes := [concatDiagonal
              ((List.replicate 499 (castDF dfColA) ++ [castDF dfColA])
                ++ [castDF dfColA])]
          , attempts := 2, errors := 1 } := by
      simp only [processFile, hnd]
      rw [if_pos (Or.inr trivial :
            batch_size ≤ ((List.replicate 499 (castDF dfColA) ++ [castDF dfColA])
              ++ [castDF dfColA]).length ∨ True),
          isEmpty_append_singleton,
          show failFirst 1 = true from rfl]
      simp
    simp only [ingestLoop, hstep1, hstep2]
    rfl
  rw [hrun]
  refine ⟨rfl, ?_⟩
  show [(concatDiagonal (List.replicate 501 (castDF dfColA))).rows.length] = [501]
  rw [concatDiagonal_rows_length]
  simp [castDF, dfColA, List.sum_replicate]

/-- C2 as amended: when a flush write raises, the error is caught by the
per-file handler and logged (one more error), the prior successful flushes
stay committed (the write trace is unchanged), the batch is kept, and the
loop continues with the remaining files exactly as after any other file. -/
theorem c2_flush_failure_continues (table : String)
    (sm : Option (List (String × String))) (K total : Nat) (ok : Nat → Bool)
    (st : IngestState) (i : Nat) (df ndf : DF)
    (hpd : processDF sm df = some ndf)
    (hfc : K ≤ (st.batch ++ [ndf]).length ∨ i = total - 1)
    (hfail : ok st.attempts = false) :
    processFile table sm K total ok st i (some df)
      = { st with batch := st.batch ++ [ndf], attempts := st.attempts + 1,
                  errors := st.errors + 1 }
    ∧ ∀ rest : List (Option DF),
        ingestLoop table sm K total ok (some df :: rest) i st
          = ingestLoop table sm K total ok rest (i + 1)
              (processFile table sm K total ok st i (some df)) := by
  refine ⟨?_, fun rest => rfl⟩
  simp only [processFile, hpd]
  rw [if_pos hfc, isEmpty_append_singleton, hfail]
  simp

/-- Witness for C2 as amended at a concrete failing flush. -/
theorem c2_flush_failure_continues_witness :
    processFile "t" none 1 3 (fun _ => false) (initState []) 0 (some dfColA)
      = { initState [] with
          batch := (initState []).batch ++ [castDF dfColA],
          attempts := (initState []).attempts + 1,
          errors := (initState []).errors + 1 } :=
  (c2_flush_failure_continues "t" none 1 3 (fun _ => false) (initState []) 0
      dfColA (castDF dfColA) rfl (by decide) rfl).1

/-! ### Claim C9 — the batch is kept when the write raises -/

/-- C9: when the flush write raises, the batch is not cleared — the write
trace is unchanged and every record set accumulated before the failure is
still in the batch; the next successful flush then writes the retained
record sets together with the ones appended afterwards. -/
theorem c9_batch_kept_on_failed_write (table : String)
    (sm : Option (List (String × String))) (K total : Nat) (ok : Nat → Bool)
    (st : IngestState) (i j : Nat) (f1 f2 n1 n2 : DF)
    (hp1 : processDF sm f1 = some n1)
    (hp2 : processDF sm f2 = some n2)
    (hsize : K ≤ (st.batch ++ [n1]).length)
    (hfail : ok st.attempts = false)
    (hre : ok (st.attempts + 1) = true) :
    (processFile table sm K total ok st i (some f1)).batch = st.batch ++ [n1]
    ∧ (processFile table sm K total ok st i (some f1)).writes = st.writes
    ∧ (processFile table sm K total ok
        (processFile table sm K total ok st i (some f1)) j (some f2)).batch = []
    ∧ (processFile table sm K total ok
        (processFile table sm K total ok st i (some f1)) j (some f2)).writes
      = st.writes ++ [concatDiagonal (st.batch ++ [n1, n2])] := by
  have hstep1 : processFile table sm K total ok st i (some f1)
      = { st with batch := st.batch ++ [n1], attempts := st.attempts + 1,
                  errors := st.errors + 1 } := by
    simp only [processFile, hp1]
    rw [if_pos (Or.inl hsize : K ≤ (st.batch ++ [n1]).length ∨ i = total - 1),
        isEmpty_append_singleton, hfail]
    simp
  have hsize2 : K ≤ ((st.batch ++ [n1]) ++ [n2]).length := by
    simp at hsize ⊢
    omega
  have hstep2 : processFile table sm K total ok
      { st with batch := st.batch ++ [n1], attempts := st.attempts + 1,
                errors := st.errors + 1 } j (some f2)
      = { batch := []
        , db := appendTable st.db table
            (concatDiagonal ((st.batch ++ [n1]) ++ [n2]))
        , writes := st.writes ++ [concatDiagonal ((st.batch ++ [n1]) ++ [n2])]
        , attempts := st.attempts + 1 + 1
        , errors := st.errors + 1 } := by
    simp only [processFile, hp2]
    rw [if_pos (Or.inl hsize2 :
          K ≤ ((st.batch ++ [n1]) ++ [n2]).length ∨ j = total - 1),
        isEmpty_append_singleton, hre]
    simp
  rw [hstep1, hstep2]
  refine ⟨rfl, rfl, rfl, ?_⟩
  simp

/-- Witness for C9 at a concrete two-file run with batch size one: the
record set of the first file survives the failed write and is part of the
next successful write together with the second record set. -/
theorem c9_batch_kept_on_failed_write_witness :
    (processFile "t" none 1 5 (fun a => a == 1)
        (processFile "t" none 1 5 (fun a => a == 1) (initState []) 0
          (some dfColA)) 1 (some dfColB)).writes
      = (initState []).writes
        ++ [concatDiagonal ((initState []).batch
              ++ [castDF dfColA, castDF dfColB])] :=
  (c9_batch_kept_on_failed_write "t" none 1 5 (fun a => a == 1) (initState [])
      0 1 dfColA dfColB (castDF dfColA) (castDF dfColB) rfl rfl (by decide)
      rfl rfl).2.2.2

/-! ### Claim C5 — one corrupt file among valid ones -/

/-- C5 failing input: two files, the first valid, the second corrupt, with
the default batch size 500.  The flush-on-last-file check sits inside the
`try` block, so the raising last file skips it: the run ends with one error
logged but with the valid record set still in the batch and nothing ever
written to the sink — the valid file is not ingested, contradicting the
claim (and the documented policy that a file failure never affects the
rest of the run). -/
theorem c5_failing_input_eval :
    (ingest_files "t" none (fun _ => true) [] [some dfColA, none]).writes = []
    ∧ (ingest_files "t" none (fun _ => true) [] [some dfColA, none]).errors = 1
    ∧ (ingest_files "t" none (fun _ => true) [] [some dfColA, none]).batch
        = [castDF dfColA] :=
  ⟨rfl, rfl, rfl⟩

/-! ### Claim C8 — run-level table reset and append-only flushes -/

lemma dropTable_idem : ∀ (d : DB) (t : String),
    dropTable (dropTable d t) t = dropTable d t := by
  intro d
  induction d with
  | nil => intro t; rfl
  | cons p rest ih =>
    intro t
    obtain ⟨t3, ds⟩ := p
    by_cases h : t3 = t
    · simp [dropTable, h, ih]
    · simp [dropTable, h, ih]

lemma dropTable_absent : ∀ (d : DB) (t : String), (∀ p ∈ d, p.1 ≠ t) →
    dropTable d t = d := by
  intro d
  induction d with
  | nil => intro t _; rfl
  | cons p rest ih =>
    intro t hall
    obtain ⟨t3, ds⟩ := p
    have h3 : t3 ≠ t := hall (t3, ds) (List.mem_cons_self _ _)
    simp [dropTable, h3, ih t (fun q hq => hall q (List.mem_cons_of_mem _ hq))]

lemma tableContent_dropTable_self : ∀ (d : DB) (t : String),
    tableContent (dropTable d t) t = [] := by
  intro d
  induction d with
  | nil => intro t; rfl
  | cons p rest ih =>
    intro t
    obtain ⟨t3, ds⟩ := p
    by_cases h : t3 = t
    · simp [dropTable, h, ih]
    · simp [dropTable, h, tableContent, ih]

lemma tableContent_dropTable_other : ∀ (d : DB) (t t2 : String), t2 ≠ t →
    tableContent (dropTable d t) t2 = tableContent d t2 := by
  intro d
  induction d with
  | nil => intro t t2 _; rfl
  | cons p rest ih =>
    intro t t2 hne
    obtain ⟨t3, ds⟩ := p
    by_cases h : t3 = t
    · subst h
      have h32 : ¬ t3 = t2 := fun hh => hne hh.symm
      simp [dropTable, tableContent, h32, ih _ _ hne]
    · by_cases h2 : t3 = t2
      · simp [dropTable, h, tableContent, h2, hne]
      · simp [dropTable, h, tableContent, h2, hne, ih _ _ hne]

lemma tableContent_appendTable : ∀ (d : DB) (t t2 : String) (x : DF),
    tableContent (appendTable d t x) t2
      = if t2 = t then tableContent d t2 ++ [x] else tableContent d t2 := by
  intro d
  induction d with
  | nil =>
    intro t t2 x
    by_cases h : t2 = t
    · subst h; simp [appendTable, tableContent]
    · have h2 : ¬ t = t2 := fun hh => h hh.symm
      simp [appendTable, tableContent, h, h2]
  | cons p rest ih =>
    intro t t2 x
    obtain ⟨t3, ds⟩ := p
    by_cases h3 : t3 = t
    · subst h3
      by_cases h2 : t2 = t3
      · subst h2; simp [appendTable, tableContent]
      · have h2s : ¬ t3 = t2 := fun hh => h2 hh.symm
        simp [appendTable, tableContent, h2, h2s]
    · by_cases h32 : t3 = t2
      · subst h32
        simp [appendTable, tableContent, h3]
      · simp [appendTable, tableContent, h3, h32, ih t t2 x]

/-- One loop step either leaves the sink untouched or appends exactly one
frame to the table of the run, mirrored in the write trace. -/
lemma processFile_db_delta (table : String) (sm : Option (List (String × String)))
    (K total : Nat) (ok : Nat → Bool) (st : IngestState) (i : Nat)
    (f : Option DF) :
    ((processFile table sm K total ok st i f).writes = st.writes
      ∧ (processFile table sm K total ok st i f).db = st.db)
    ∨ ∃ c, (processFile table sm K total ok st i f).writes = st.writes ++ [c]
        ∧ (processFile table sm K total ok st i f).db = appendTable st.db table c := by
  cases f with
  | none => exact Or.inl ⟨rfl, rfl⟩
  | some df =>
    cases hpd : processDF sm df with
    | none =>
      left
      simp [processFile, hpd]
    | some ndf =>
      simp only [processFile, hpd]
      split
      · split
        · left; simp
        · split
          · right
            exact ⟨concatDiagonal (st.batch ++ [ndf]), by simp, by simp⟩
          · left; simp
      · left; simp

/-- Over a whole run, the sink is append-only: the table of the run receives
exactly the flushed frames of the trace, in order, and no other table is
touched. -/
lemma ingestLoop_db_delta (table : String) (sm : Option (List (String × String)))
    (K total : Nat) (ok : Nat → Bool) :
    ∀ (fs : List (Option DF)) (i : Nat) (st : IngestState),
      ∃ ws : List DF,
        (ingestLoop table sm K total ok fs i st).writes = st.writes ++ ws
        ∧ tableContent (ingestLoop table sm K total ok fs i st).db table
            = tableContent st.db table ++ ws
        ∧ ∀ t2, t2 ≠ table →
            tableContent (ingestLoop table sm K total ok fs i st).db t2
              = tableContent st.db t2 := by
  intro fs
  induction fs with
  | nil =>
    intro i st
    exact ⟨[], by simp [ingestLoop], by simp [ingestLoop], fun t2 _ => rfl⟩
  | cons f rest ih =>
    intro i st
    obtain ⟨ws, hw, ht, ho⟩ := ih (i + 1) (processFile table sm K total ok st i f)
    rcases processFile_db_delta table sm K total ok st i f with
      ⟨hw0, hd0⟩ | ⟨c, hw0, hd0⟩
    · refine ⟨ws, ?_, ?_, ?_⟩
      · simp only [ingestLoop]
        rw [hw, hw0]
      · simp only [ingestLoop]
        rw [ht, hd0]
      · intro t2 ht2
        simp only [ingestLoop]
        rw [ho t2 ht2, hd0]
    · refine ⟨c :: ws, ?_, ?_, ?_⟩
      · simp only [ingestLoop]
        rw [hw, hw0, List.append_assoc, List.singleton_append]
      · simp only [ingestLoop]
        rw [ht, hd0, tableContent_appendTable, if_pos rfl, List.append_assoc,
          List.singleton_append]
      · intro t2 ht2
        simp only [ingestLoop]
        rw [ho t2 ht2, hd0, tableContent_appendTable, if_neg ht2]

/-- The control flow and the write trace of a run do not depend on the
database contents: states agreeing on everything but the database produce
the same trace. -/
lemma processFile_core_cong (table : String) (sm : Option (List (String × String)))
    (K total : Nat) (ok : Nat → Bool) (st st2 : IngestState) (i : Nat)
    (f : Option DF) (hb : st.batch = st2.batch) (hw : st.writes = st2.writes)
    (ha : st.attempts = st2.attempts) (he : st.errors = st2.errors) :
    (processFile table sm K total ok st i f).batch
        = (processFile table sm K total ok st2 i f).batch
    ∧ (processFile table sm K total ok st i f).writes
        = (processFile table sm K total ok st2 i f).writes
    ∧ (processFile table sm K total ok st i f).attempts
        = (processFile table sm K total ok st2 i f).attempts
    ∧ (processFile table sm K total ok st i f).errors
        = (processFile table sm K total ok st2 i f).errors := by
  obtain ⟨b, dbA, w, a, e⟩ := st
  obtain ⟨b2, dbB, w2, a2, e2⟩ := st2
  dsimp only at hb hw ha he
  subst hb hw ha he
  cases f with
  | none => exact ⟨rfl, rfl, rfl, rfl⟩
  | some df =>
    cases hpd : processDF sm df with
    | none =>
      simp [processFile, hpd]
    | some ndf =>
      simp only [processFile, hpd]
      split
      · split
        · simp
        · split
          · simp
          · simp
      · simp

lemma ingestLoop_core_cong (table : String) (sm : Option (List (String × String)))
    (K total : Nat) (ok : Nat → Bool) :
    ∀ (fs : List (Option DF)) (i : Nat) (st st2 : IngestState),
      st.batch = st2.batch → st.writes = st2.writes →
      st.attempts = st2.attempts → st.errors = st2.errors →
      (ingestLoop table sm K total ok fs i st).writes
        = (ingestLoop table sm K total ok fs i st2).writes := by
  intro fs
  induction fs with
  | nil => intro i st st2 _ hw _ _; exact hw
  | cons f rest ih =>
    intro i st st2 hb hw ha he
    obtain ⟨cb, cw, ca, ce⟩ :=
      processFile_core_cong table sm K total ok st st2 i f hb hw ha he
    simp only [ingestLoop]
    exact ih (i + 1) _ _ cb cw ca ce

/-- The write trace of `ingest_files` does not depend on the initial
database contents. -/
lemma ingest_files_writes_db_indep (table : String)
    (sm : Option (List (String × String))) (ok : Nat → Bool)
    (files : List (Option DF)) (db db2 : DB) :
    (ingest_files table sm ok db files).writes
      = (ingest_files table sm ok db2 files).writes :=
  ingestLoop_core_cong table sm batch_size files.length ok files 0
    (initState db) (initState db2) rfl rfl rfl rfl

/-- After one `ingest_files` run, the table of the run holds its previous
content followed by the flushed frames, and every other table is
untouched. -/
lemma ingest_files_content (table : String)
    (sm : Option (List (String × String))) (ok : Nat → Bool) (db : DB)
    (files : List (Option DF)) :
    tableContent (ingest_files table sm ok db files).db table
      = tableContent db table ++ (ingest_files table sm ok db files).writes
    ∧ ∀ t2, t2 ≠ table →
        tableContent (ingest_files table sm ok db files).db t2
          = tableContent db t2 := by
  obtain ⟨ws, hw, ht, ho⟩ := ingestLoop_db_delta table sm batch_size
    files.length ok files 0 (initState db)
  constructor
  · unfold ingest_files ingestFilesK
    rw [ht, hw]
    simp [initState]
  · intro t2 ht2
    unfold ingest_files ingestFilesK
    rw [ho t2 ht2]
    simp [initState]

/-- The observable table contents after `main` are exactly the traces of
the two ingestion runs started on the freshly dropped tables, independent
of any earlier database state. -/
lemma mainPipeline_tables (okA okB : Nat → Bool) (db : DB)
    (sf iv : List (Option DF)) :
    tableContent (mainPipeline okA okB db sf iv) "raw_sales"
      = (ingest_files "raw_sales" (some SALES_SCHEMA_MAP) okA [] sf).writes
    ∧ tableContent (mainPipeline okA okB db sf iv) "raw_inventory"
      = (ingest_files "raw_inventory" none okB [] iv).writes := by
  have hsd : ("raw_sales" : String) ≠ "raw_inventory" := by decide
  have hds : ("raw_inventory" : String) ≠ "raw_sales" := by decide
  obtain ⟨ht1, ho1⟩ := ingest_files_content "raw_sales" (some SALES_SCHEMA_MAP)
    okA (dropTable (dropTable db "raw_sales") "raw_inventory") sf
  obtain ⟨ht2, ho2⟩ := ingest_files_content "raw_inventory" none okB
    (ingest_files "raw_sales" (some SALES_SCHEMA_MAP) okA
      (dropTable (dropTable db "raw_sales") "raw_inventory") sf).db iv
  have hmain : mainPipeline okA okB db sf iv
      = (ingest_files "raw_inventory" none okB
          (ingest_files "raw_sales" (some SALES_SCHEMA_MAP) okA
            (dropTable (dropTable db "raw_sales") "raw_inventory") sf).db
          iv).db := rfl
  constructor
  · rw [hmain, ho2 "raw_sales" hsd, ht1,
      tableContent_dropTable_other _ _ _ hsd, tableContent_dropTable_self,
      List.nil_append]
    exact ingest_files_writes_db_indep _ _ _ _ _ _
  · rw [hmain, ht2, ho1 "raw_inventory" hds, tableContent_dropTable_self,
      List.nil_append]
    exact ingest_files_writes_db_indep _ _ _ _ _ _

/-- C8: the target tables are dropped once at the top of `main` (full
refresh): dropping is idempotent and dropping an absent table changes
nothing; within a run the sink is append-only (every table holds its prior
content extended by the flushed frames); consequently the tables after a
pipeline invocation are independent of the database it started from, and
invoking the pipeline twice in succession leaves exactly the rows of the
second invocation in `raw_sales` and `raw_inventory`. -/
theorem c8_full_refresh (ok1 ok2 ok3 ok4 : Nat → Bool) (db db2 : DB)
    (salesFiles invFiles salesFiles0 invFiles0 : List (Option DF)) :
    (∀ (d : DB) (t : String), dropTable (dropTable d t) t = dropTable d t)
    ∧ (∀ (d : DB) (t : String), (∀ p ∈ d, p.1 ≠ t) → dropTable d t = d)
    ∧ (∀ (table : String) (sm : Option (List (String × String)))
        (ok : Nat → Bool) (d : DB) (files : List (Option DF)) (t : String),
        ∃ ws, tableContent (ingest_files table sm ok d files).db t
            = tableContent d t ++ ws)
    ∧ tableContent (mainPipeline ok1 ok2 db salesFiles invFiles) "raw_sales"
        = tableContent (mainPipeline ok1 ok2 db2 salesFiles invFiles) "raw_sales"
    ∧ tableContent (mainPipeline ok1 ok2 db salesFiles invFiles) "raw_inventory"
        = tableContent (mainPipeline ok1 ok2 db2 salesFiles invFiles)
            "raw_inventory"
    ∧ tableContent (mainPipeline ok1 ok2
          (mainPipeline ok3 ok4 db salesFiles0 invFiles0) salesFiles invFiles)
          "raw_sales"
        = tableContent (mainPipeline ok1 ok2 db salesFiles invFiles) "raw_sales"
    ∧ tableContent (mainPipeline ok1 ok2
          (mainPipeline ok3 ok4 db salesFiles0 invFiles0) salesFiles invFiles)
          "raw_inventory"
        = tableContent (mainPipeline ok1 ok2 db salesFiles invFiles)
            "raw_inventory" := by
  refine ⟨dropTable_idem, dropTable_absent, ?_, ?_, ?_, ?_, ?_⟩
  · intro table sm ok d files t
    obtain ⟨ht, ho⟩ := ingest_files_content table sm ok d files
    by_cases hq : t = table
    · subst hq
      exact ⟨(ingest_files t sm ok d files).writes, ht⟩
    · exact ⟨[], by rw [ho t hq, List.append_nil]⟩
  · rw [(mainPipeline_tables ok1 ok2 db salesFiles invFiles).1,
      (mainPipeline_tables ok1 ok2 db2 salesFiles invFiles).1]
  · rw [(mainPipeline_tables ok1 ok2 db salesFiles invFiles).2,
      (mainPipeline_tables ok1 ok2 db2 salesFiles invFiles).2]
  · rw [(mainPipeline_tables ok1 ok2 _ salesFiles invFiles).1,
      (mainPipeline_tables ok1 ok2 db salesFiles invFiles).1]
  · rw [(mainPipeline_tables ok1 ok2 _ salesFiles invFiles).2,
      (mainPipeline_tables ok1 ok2 db salesFiles invFiles).2]

/-- Witness for C8 (its second conjunct has a hypothesis): dropping the
absent table `raw_sales` from a database holding only `other` changes
nothing, instantiated through the claim theorem. -/
theorem c8_full_refresh_witness :
    dropTable [("other", [dfColA])] "raw_sales" = [("other", [dfColA])] :=
  (c8_full_refresh (fun _ => true) (fun _ => true) (fun _ => true)
      (fun _ => true) [] [] [] [] [] []).2.1 [("other", [dfColA])] "raw_sales"
    (by decide)
